import Mathlib

set_option maxHeartbeats 1000000

/-!
Verification of the treemap heatmap core of InitiativeCRM.Frontend
(src/web/src/app/layouts/heatmap.tsx): the category classifier, the
weight function, the recursive treemap partitioner, the websocket
message handler and the filter/sort pipeline, embedded shallowly.
JavaScript strings are lists of characters; JavaScript numbers are
idealised as real numbers.
-/

namespace Heatmap

/-- JavaScript strings, modelled as lists of characters. -/
abbrev JSString := List Char

/-- JS String.prototype.toUpperCase (ASCII). -/
def jsUpper (s : JSString) : JSString := s.map Char.toUpper

/-- JS String.prototype.toLowerCase (ASCII). -/
def jsLower (s : JSString) : JSString := s.map Char.toLower

/-- JS String.prototype.includes: contiguous substring containment. -/
def jsIncludes : JSString → JSString → Bool
  | [], sub => sub.isEmpty
  | c :: t, sub => List.isPrefixOf sub (c :: t) || jsIncludes t sub

/-- JS String.prototype.endsWith. -/
def jsEndsWith (s suf : JSString) : Bool := List.isSuffixOf suf s

/-- JS String.prototype.trim. -/
def jsTrim (s : JSString) : JSString :=
  ((s.dropWhile Char.isWhitespace).reverse.dropWhile Char.isWhitespace).reverse

/-- JS truthiness of an optional string: undefined and the empty string are falsy. -/
def truthy : Option JSString → Bool
  | some (_ :: _) => true
  | _ => false

/-- JS || chain over optional string fields: the first truthy value, else the empty string. -/
def jsOrChain : List (Option JSString) → JSString
  | [] => []
  | some (c :: t) :: _ => c :: t
  | _ :: rest => jsOrChain rest

/-- JS String.prototype.split on a single-character separator. -/
def splitOnChar (sep : Char) : JSString → List JSString
  | [] => [[]]
  | c :: t =>
    if c == sep then [] :: splitOnChar sep t
    else
      match splitOnChar sep t with
      | [] => [[c]]
      | s :: rest => (c :: s) :: rest

/-- A JavaScript number-or-string field value: a number, a string that parses
to a number under Number(), or a string that does not. -/
inductive JSNum where
  | num (x : ℝ)
  | numStr (x : ℝ)
  | nanStr
deriving Inhabited

/-- The dynamic ticker payload: every string-keyed field the heatmap probes,
each possibly absent (undefined). -/
structure Payload where
  assetClass : Option JSString := none
  asset_class : Option JSString := none
  assetType : Option JSString := none
  type : Option JSString := none
  instrumentType : Option JSString := none
  category : Option JSString := none
  asset : Option JSString := none
  exchange : Option JSString := none
  exchangeName : Option JSString := none
  market : Option JSString := none
  name : Option JSString := none
  fullName : Option JSString := none
  description : Option JSString := none
  symbol : Option JSString := none
  id : Option JSString := none
  ticker : Option JSString := none
  price : Option JSNum := none
  last : Option JSNum := none
  value : Option JSNum := none
  p : Option JSNum := none
  close : Option JSNum := none
  priceChange24h : Option JSNum := none

/-! Category detection constants, from heatmap.tsx lines 195-203. -/

def KNOWN_CRYPTO_TICKERS : List JSString :=
  [("BTC").toList, ("ETH").toList, ("BNB").toList, ("ADA").toList, ("SOL").toList,
   ("DOT").toList, ("DOGE").toList, ("LTC").toList, ("XRP").toList, ("LINK").toList,
   ("MATIC").toList, ("AVAX").toList, ("ATOM").toList, ("TRX").toList, ("ALGO").toList,
   ("XLM").toList, ("FIL").toList, ("NEAR").toList, ("APT").toList]

def KNOWN_QUOTE_SUFFIXES : List JSString :=
  [("USD").toList, ("USDT").toList, ("USDC").toList, ("EUR").toList, ("GBP").toList,
   ("JPY").toList, ("BTC").toList, ("ETH").toList, ("BUSD").toList, ("TRY").toList]

def METAL_IDENTIFIERS : List JSString :=
  [("XAU").toList, ("XAG").toList, ("GOLD").toList, ("SILVER").toList,
   ("XPT").toList, ("XPD").toList, ("PLATINUM").toList, ("PALLADIUM").toList]

def COMMODITY_IDENTIFIERS : List JSString :=
  [("WTI").toList, ("BRENT").toList, ("OIL").toList, ("NG").toList, ("GAS").toList,
   ("COPPER").toList, ("COFFEE").toList, ("CORN").toList, ("WHEAT").toList,
   ("SOY").toList, ("SUGAR").toList, ("COTTON").toList]

def fiatCandidates : List JSString :=
  [("USD").toList, ("EUR").toList, ("GBP").toList, ("JPY").toList, ("AUD").toList,
   ("CAD").toList, ("CHF").toList, ("NZD").toList, ("CNY").toList, ("SGD").toList]

/-- A character of the class [A-Z0-9] from the leading-run regexes. -/
def isSymbolChar (c : Char) : Bool := c.isUpper || c.isDigit

/-- Head of the rest starts one of the separators -, _, / of the regex. -/
def headIsSep : JSString → Bool
  | c :: _ => c == '-' || c == '_' || c == '/'
  | [] => false

/-- Head of the rest is a dot. -/
def headIsDot : JSString → Bool
  | c :: _ => c == '.'
  | [] => false

/-- Strip the first known quote suffix, heatmap.tsx lines 212-214. -/
def quoteStrip (up : JSString) : List JSString → JSString
  | [] => up
  | q :: rest =>
    if jsEndsWith up q && decide (q.length < up.length)
    then up.take (up.length - q.length)
    else quoteStrip up rest

/-- extractBaseSymbol, heatmap.tsx lines 205-216. -/
def extractBaseSymbol (key : JSString) : JSString :=
  if key.isEmpty then key
  else
    let up := jsUpper key
    let run := up.takeWhile isSymbolChar
    if !run.isEmpty && headIsSep (up.drop run.length) then run
    else if !run.isEmpty && headIsDot (up.drop run.length) then run
    else quoteStrip up KNOWN_QUOTE_SUFFIXES

/-- A JS word character for the word-boundary regex: alphanumeric or underscore. -/
def isWordChar (c : Char) : Bool := c.isAlphanum || c == '_'

/-- The word occurs at the head of s with a word boundary after it. -/
def hasWordAt (word s : JSString) : Bool :=
  List.isPrefixOf word s &&
    (match s.drop word.length with
     | [] => true
     | c :: _ => !isWordChar c)

/-- Scan s for a word-boundary occurrence of word; prevWord says whether the
character before the current position was a word character. -/
def hasWordAux (word : JSString) : JSString → Bool → Bool
  | [], _ => false
  | c :: t, prevWord =>
    (!prevWord && hasWordAt word (c :: t)) || hasWordAux word t (isWordChar c)

/-- JS regex word-boundary search for a fully word-charactered word. -/
def hasWord (word s : JSString) : Bool := hasWordAux word s false

/-- detectCategory, heatmap.tsx lines 238-288. -/
def detectCategory (d : Option Payload) (key : JSString) : JSString :=
  let upKey := jsUpper key
  let typeHints := jsLower (match d with
    | none => []
    | some dd => jsOrChain [dd.assetClass, dd.asset_class, dd.asset, dd.type, dd.instrumentType, dd.category])
  if jsIncludes typeHints (("crypto").toList) || jsIncludes typeHints (("digital").toList) then ("Crypto").toList
  else if jsIncludes typeHints (("metal").toList) || jsIncludes typeHints (("precious").toList) then ("Metals").toList
  else if jsIncludes typeHints (("commodity").toList) || jsIncludes typeHints (("commodities").toList) then ("Commodities").toList
  else if jsIncludes typeHints (("etf").toList) then ("ETF").toList
  else if jsIncludes typeHints (("equity").toList) || jsIncludes typeHints (("stock").toList) then ("Equities").toList
  else if jsIncludes typeHints (("index").toList) then ("Indices").toList
  else if jsIncludes typeHints (("forex").toList) || jsIncludes typeHints (("fx").toList) || jsIncludes typeHints (("currency").toList) then ("FX").toList
  else if jsIncludes typeHints (("bond").toList) || jsIncludes typeHints (("treasury").toList) then ("Bonds").toList
  else
    let exchange := jsLower (match d with
      | none => []
      | some dd => jsOrChain [dd.exchange, dd.exchangeName, dd.market])
    if jsIncludes exchange (("binance").toList) || jsIncludes exchange (("coinbase").toList) || jsIncludes exchange (("kraken").toList) then ("Crypto").toList
    else if jsIncludes exchange (("nyse").toList) || jsIncludes exchange (("nasdaq").toList) then ("Equities").toList
    else
      let base := extractBaseSymbol upKey
      if base.isEmpty then ("Other").toList
      else if METAL_IDENTIFIERS.any (fun m => base == m || jsIncludes upKey m) then ("Metals").toList
      else if COMMODITY_IDENTIFIERS.any (fun c => base == c || jsIncludes upKey c) then ("Commodities").toList
      else if KNOWN_CRYPTO_TICKERS.contains base then ("Crypto").toList
      else if KNOWN_QUOTE_SUFFIXES.any (fun q =>
          jsEndsWith upKey q && KNOWN_CRYPTO_TICKERS.contains (upKey.take (upKey.length - q.length))) then ("Crypto").toList
      else
        let name := jsLower (match d with
          | none => []
          | some dd => jsOrChain [dd.name, dd.fullName, dd.description])
        if jsIncludes name (("bitcoin").toList) || jsIncludes name (("ethereum").toList) || jsIncludes name (("crypto").toList) then ("Crypto").toList
        else if jsIncludes name (("gold").toList) || jsIncludes name (("silver").toList) then ("Metals").toList
        else if jsIncludes name (("oil").toList) || jsIncludes name (("brent").toList) || jsIncludes name (("wti").toList) then ("Commodities").toList
        else if jsIncludes name (("etf").toList) then ("ETF").toList
        else if (hasWord (("inc").toList) name || hasWord (("corp").toList) name ||
                 hasWord (("ltd").toList) name || hasWord (("company").toList) name) &&
                !(jsIncludes name (("fund").toList)) then ("Equities").toList
        else if jsIncludes name (("index").toList) then ("Indices").toList
        else if decide (upKey.length = 6) && upKey.all Char.isUpper &&
                fiatCandidates.contains (upKey.take 3) && fiatCandidates.contains (upKey.drop 3) then ("FX").toList
        else if jsIncludes upKey (("/").toList) &&
                (let parts := splitOnChar '/' upKey
                 decide (parts.length = 2) &&
                 fiatCandidates.contains (parts.headD []) &&
                 fiatCandidates.contains ((parts.drop 1).headD [])) then ("FX").toList
        else if jsEndsWith upKey (("ETF").toList) || jsIncludes name (("etf").toList) then ("ETF").toList
        else ("Other").toList

/-- Title-case of the explicit hint string: charAt(0).toUpperCase() + slice(1). -/
def titleCase : JSString → JSString
  | [] => []
  | c :: t => Char.toUpper c :: t

/-- getCategoryFromData, heatmap.tsx lines 218-236. -/
def getCategoryFromData (d : Option Payload) (key : JSString) : JSString :=
  if d.isNone && key.isEmpty then ("Other").toList
  else
    let candidate := match d with
      | none => []
      | some dd => jsOrChain [dd.assetClass, dd.asset_class, dd.assetType, dd.type, dd.instrumentType, dd.category]
    if !candidate.isEmpty && !(jsTrim candidate).isEmpty then
      let v := jsTrim candidate
      let up := jsLower v
      if jsIncludes up (("crypto").toList) || jsIncludes up (("digital").toList) then ("Crypto").toList
      else if jsIncludes up (("metal").toList) || jsIncludes up (("precious").toList) then ("Metals").toList
      else if jsIncludes up (("commodity").toList) then ("Commodities").toList
      else if jsIncludes up (("etf").toList) then ("ETF").toList
      else if jsIncludes up (("equity").toList) || jsIncludes up (("stock").toList) || jsIncludes up (("share").toList) then ("Equities").toList
      else if jsIncludes up (("index").toList) then ("Indices").toList
      else if jsIncludes up (("forex").toList) || jsIncludes up (("fx").toList) || jsIncludes up (("currency").toList) then ("FX").toList
      else if jsIncludes up (("bond").toList) || jsIncludes up (("treasury").toList) then ("Bonds").toList
      else titleCase v
    else detectCategory d key

/-! The weight function and the treemap partitioner, heatmap.tsx lines 85-91 and 134-179.
JavaScript numbers are idealised as real numbers; Math.log10 is Real.logb 10,
Math.floor is Int.floor and Math.ceil is Int.ceil. -/

open scoped Classical in
/-- computeWeight, heatmap.tsx lines 85-89: missing price is treated as 1,
missing change as 0. -/
noncomputable def computeWeight (price change : Option ℝ) : ℝ :=
  let p := Real.logb 10 (price.getD 1 + 1)
  let c := min |change.getD 0| 10 / 10
  max 0.6 (p * 0.5 + c * 1.4)

/-- The Rect record of heatmap.tsx lines 24-34 (the fields the partitioner uses). -/
structure Rect where
  x : ℝ
  y : ℝ
  width : ℝ
  height : ℝ
  key : JSString
  price : Option ℝ := none
  priceChange24hr : Option ℝ := none
  category : Option JSString := none
  _weight : Option ℝ := none

/-- Spread-with-placement `{ ...it, x, y, width: w, height: h }`. -/
def place (it : Rect) (x y w h : ℝ) : Rect :=
  ⟨x, y, w, h, it.key, it.price, it.priceChange24hr, it.category, it._weight⟩

/-- MIN_TILE, heatmap.tsx line 38. -/
def MIN_TILE : ℝ := 22

/-- safe, heatmap.tsx line 91: Math.max(MIN_TILE, Math.floor(n)). -/
noncomputable def safe (n : ℝ) : ℝ := max MIN_TILE (⌊n⌋ : ℝ)

/-- The weight of an item inside partition: `it._weight ?? computeWeight(...)`. -/
noncomputable def rectWeight (it : Rect) : ℝ :=
  it._weight.getD (computeWeight it.price it.priceChange24hr)

/-- The reduce-based weight total of heatmap.tsx lines 144 and 165. -/
noncomputable def totalWeight (items : List Rect) : ℝ :=
  items.foldl (fun s it => s + rectWeight it) 0

open scoped Classical in
/-- The accumulate-and-break loop of heatmap.tsx lines 152-160: the index of
the first item at which the running weight total reaches half the grand
total, if any. -/
noncomputable def firstReach (total : ℝ) : List Rect → ℝ → Option ℕ
  | [], _ => none
  | it :: rest, acc =>
    if total / 2 ≤ acc + rectWeight it then some 0
    else (firstReach total rest (acc + rectWeight it)).map (· + 1)

/-- The split index of heatmap.tsx lines 152-162: the loop result (0 when the
loop never breaks) clamped by `if (idx >= items.length - 1) idx = items.length - 2`. -/
noncomputable def splitIdx (items : List Rect) : ℕ :=
  min ((firstReach (totalWeight items) items 0).getD 0) (items.length - 2)

open scoped Classical in
/-- partition, heatmap.tsx lines 134-179. -/
noncomputable def partition : List Rect → ℝ → ℝ → ℝ → ℝ → Bool → List Rect
  | [], _, _, _, _, _ => []
  | [it], x, y, w, h, _ => [place it x y w h]
  | it0 :: it1 :: rest, x, y, w, h, horizontal =>
    let items := it0 :: it1 :: rest
    if totalWeight items ≤ 0 then
      partition (items.take (items.length / 2)) x y (⌊w / 2⌋ : ℝ) h (!horizontal) ++
      partition (items.drop (items.length / 2)) (x + (⌊w / 2⌋ : ℝ)) y (⌈w / 2⌉ : ℝ) h (!horizontal)
    else
      let a := items.take (splitIdx items + 1)
      let b := items.drop (splitIdx items + 1)
      if horizontal then
        let wA := safe (w * totalWeight a / totalWeight items)
        partition a x y wA h (!horizontal) ++
        partition b (x + wA) y (safe (w - wA)) h (!horizontal)
      else
        let hA := safe (h * totalWeight a / totalWeight items)
        partition a x y w hA (!horizontal) ++
        partition b x (y + hA) w (safe (h - hA)) (!horizontal)
termination_by items _ _ _ _ _ => items.length
decreasing_by
  all_goals simp_all [splitIdx, List.length_take, List.length_drop]
  all_goals omega

/-! Basic facts about the weight bookkeeping. -/

lemma foldl_add_weight (l : List Rect) (a : ℝ) :
    l.foldl (fun s it => s + rectWeight it) a = a + (l.map rectWeight).sum := by
  induction l generalizing a with
  | nil => simp
  | cons it t ih => simp [ih, add_assoc]

lemma totalWeight_eq_sum (l : List Rect) : totalWeight l = (l.map rectWeight).sum := by
  simp [totalWeight, foldl_add_weight]

lemma totalWeight_nil : totalWeight [] = 0 := by simp [totalWeight]

lemma totalWeight_cons (it : Rect) (t : List Rect) :
    totalWeight (it :: t) = rectWeight it + totalWeight t := by
  simp [totalWeight_eq_sum]

lemma totalWeight_append (l₁ l₂ : List Rect) :
    totalWeight (l₁ ++ l₂) = totalWeight l₁ + totalWeight l₂ := by
  simp [totalWeight_eq_sum]

lemma computeWeight_ge (price change : Option ℝ) : 0.6 ≤ computeWeight price change :=
  le_max_left _ _

lemma totalWeight_pos (l : List Rect) (hne : l ≠ []) (hw : ∀ it ∈ l, 0 < rectWeight it) :
    0 < totalWeight l := by
  induction l with
  | nil => exact absurd rfl hne
  | cons it t ih =>
    rw [totalWeight_cons]
    rcases t with _ | ⟨it1, t⟩
    · simpa [totalWeight_nil] using hw it (by simp)
    · have h1 := hw it (by simp)
      have h2 := ih (by simp) (fun x hx => hw x (by simp [hx]))
      linarith

/-! Unfolding lemmas for partition's three branches. -/

lemma partition_nil (x y w h : ℝ) (horizontal : Bool) :
    partition [] x y w h horizontal = [] := by
  rw [partition]

lemma partition_single (it : Rect) (x y w h : ℝ) (horizontal : Bool) :
    partition [it] x y w h horizontal = [place it x y w h] := by
  rw [partition]

lemma partition_degen (it0 it1 : Rect) (rest : List Rect) (x y w h : ℝ) (horizontal : Bool)
    (hle : totalWeight (it0 :: it1 :: rest) ≤ 0) :
    partition (it0 :: it1 :: rest) x y w h horizontal =
      partition ((it0 :: it1 :: rest).take ((it0 :: it1 :: rest).length / 2)) x y
        (⌊w / 2⌋ : ℝ) h (!horizontal) ++
      partition ((it0 :: it1 :: rest).drop ((it0 :: it1 :: rest).length / 2))
        (x + (⌊w / 2⌋ : ℝ)) y (⌈w / 2⌉ : ℝ) h (!horizontal) := by
  rw [partition]
  simp [hle]

lemma partition_general_h (it0 it1 : Rect) (rest : List Rect) (x y w h : ℝ)
    (hpos : 0 < totalWeight (it0 :: it1 :: rest)) :
    partition (it0 :: it1 :: rest) x y w h true =
      partition ((it0 :: it1 :: rest).take (splitIdx (it0 :: it1 :: rest) + 1)) x y
        (safe (w * totalWeight ((it0 :: it1 :: rest).take (splitIdx (it0 :: it1 :: rest) + 1)) /
          totalWeight (it0 :: it1 :: rest))) h false ++
      partition ((it0 :: it1 :: rest).drop (splitIdx (it0 :: it1 :: rest) + 1))
        (x + safe (w * totalWeight ((it0 :: it1 :: rest).take (splitIdx (it0 :: it1 :: rest) + 1)) /
          totalWeight (it0 :: it1 :: rest))) y
        (safe (w - safe (w * totalWeight ((it0 :: it1 :: rest).take (splitIdx (it0 :: it1 :: rest) + 1)) /
          totalWeight (it0 :: it1 :: rest)))) h false := by
  rw [partition]
  simp [not_le.mpr hpos]

lemma partition_general_v (it0 it1 : Rect) (rest : List Rect) (x y w h : ℝ)
    (hpos : 0 < totalWeight (it0 :: it1 :: rest)) :
    partition (it0 :: it1 :: rest) x y w h false =
      partition ((it0 :: it1 :: rest).take (splitIdx (it0 :: it1 :: rest) + 1)) x y w
        (safe (h * totalWeight ((it0 :: it1 :: rest).take (splitIdx (it0 :: it1 :: rest) + 1)) /
          totalWeight (it0 :: it1 :: rest))) true ++
      partition ((it0 :: it1 :: rest).drop (splitIdx (it0 :: it1 :: rest) + 1)) x
        (y + safe (h * totalWeight ((it0 :: it1 :: rest).take (splitIdx (it0 :: it1 :: rest) + 1)) /
          totalWeight (it0 :: it1 :: rest))) w
        (safe (h - safe (h * totalWeight ((it0 :: it1 :: rest).take (splitIdx (it0 :: it1 :: rest) + 1)) /
          totalWeight (it0 :: it1 :: rest)))) true := by
  rw [partition]
  simp [not_le.mpr hpos]

/-- C5: for every price and percent-change input (missing price treated as 1,
missing change as 0), computeWeight returns exactly
max(0.6, 0.5 * log10(price_or_1 + 1) + 1.4 * min(|pctChange|, 10) / 10),
and in particular its result is always at least 0.6. -/
theorem computeWeight_exact_formula (price change : Option ℝ) :
    computeWeight price change =
      max 0.6 (0.5 * Real.logb 10 (price.getD 1 + 1) + 1.4 * (min |change.getD 0| 10 / 10)) ∧
    0.6 ≤ computeWeight price change := by
  constructor
  · unfold computeWeight
    ring_nf
  · exact computeWeight_ge price change

/-- C6: the weight function is monotone: for fixed change it is non-decreasing
in the price (on the domain price > -1 where log10(price + 1) is defined), and
for fixed price it is non-decreasing in the absolute change up to a change
magnitude of 10 and constant beyond it. -/
theorem computeWeight_monotone :
    (∀ (c : Option ℝ) (p1 p2 : ℝ), -1 < p1 → p1 ≤ p2 →
      computeWeight (some p1) c ≤ computeWeight (some p2) c) ∧
    (∀ (p : Option ℝ) (c1 c2 : ℝ), |c1| ≤ |c2| → |c2| ≤ 10 →
      computeWeight p (some c1) ≤ computeWeight p (some c2)) ∧
    (∀ (p : Option ℝ) (c1 c2 : ℝ), 10 ≤ |c1| → 10 ≤ |c2| →
      computeWeight p (some c1) = computeWeight p (some c2)) := by
  refine ⟨fun c p1 p2 h1 h12 => ?_, fun p c1 c2 h12 _h2 => ?_, fun p c1 c2 h1 h2 => ?_⟩
  · unfold computeWeight
    have hlog : Real.logb 10 (p1 + 1) ≤ Real.logb 10 (p2 + 1) :=
      Real.logb_le_logb_of_le (by norm_num) (by linarith) (by linarith)
    exact max_le_max (le_refl _) (by simp only [Option.getD_some]; nlinarith)
  · unfold computeWeight
    have hmin : min |c1| 10 ≤ min |c2| 10 := min_le_min h12 (le_refl _)
    exact max_le_max (le_refl _) (by simp only [Option.getD_some]; nlinarith)
  · unfold computeWeight
    have e1 : min |c1| 10 = 10 := min_eq_right h1
    have e2 : min |c2| 10 = 10 := min_eq_right h2
    simp only [Option.getD_some, e1, e2]

/-- Witness for C6 at concrete inputs. -/
theorem computeWeight_monotone_witness :
    computeWeight (some 1) (some 2) ≤ computeWeight (some 3) (some 2) ∧
    computeWeight (some 1) (some 2) ≤ computeWeight (some 1) (some (-3)) ∧
    computeWeight (some 1) (some 11) = computeWeight (some 1) (some (-12)) :=
  ⟨computeWeight_monotone.1 (some 2) 1 3 (by norm_num) (by norm_num),
   computeWeight_monotone.2.1 (some 1) 2 (-3) (by rw [abs_of_pos, abs_of_neg] <;> norm_num)
     (by rw [abs_of_neg] <;> norm_num),
   computeWeight_monotone.2.2 (some 1) 11 (-12) (by rw [abs_of_pos] <;> norm_num)
     (by rw [abs_of_neg] <;> norm_num)⟩

/-! Claim C3: the degenerate (total weight ≤ 0) fallback. -/

open scoped Classical in
/-- Modelled from the spec: an even first-half/second-half split along the
CURRENT axis (the axis selected by the horizontal parameter), recursing with
the orientation flipped. This is what the claim says partition does in the
degenerate case. -/
noncomputable def evenSplitCurrentAxis (items : List Rect) (x y w h : ℝ)
    (horizontal : Bool) : List Rect :=
  if horizontal then
    partition (items.take (items.length / 2)) x y (⌊w / 2⌋ : ℝ) h (!horizontal) ++
    partition (items.drop (items.length / 2)) (x + (⌊w / 2⌋ : ℝ)) y (⌈w / 2⌉ : ℝ) h (!horizontal)
  else
    partition (items.take (items.length / 2)) x y w (⌊h / 2⌋ : ℝ) (!horizontal) ++
    partition (items.drop (items.length / 2)) x (y + (⌊h / 2⌋ : ℝ)) w (⌈h / 2⌉ : ℝ) (!horizontal)

/-- C3 (amended): for at least two items of total weight ≤ 0, partition falls
back to an even first-half/second-half split, recursing into both halves with
the orientation flipped — but the split is always along the WIDTH axis,
regardless of the horizontal parameter (the claim said it follows the current
axis). -/
theorem partition_degenerate_width_split (items : List Rect) (x y w h : ℝ)
    (horizontal : Bool) (h2 : 2 ≤ items.length) (hle : totalWeight items ≤ 0) :
    partition items x y w h horizontal =
      partition (items.take (items.length / 2)) x y (⌊w / 2⌋ : ℝ) h (!horizontal) ++
      partition (items.drop (items.length / 2)) (x + (⌊w / 2⌋ : ℝ)) y (⌈w / 2⌉ : ℝ) h (!horizontal) := by
  rcases items with _ | ⟨it0, _ | ⟨it1, rest⟩⟩
  · simp at h2
  · simp at h2
  · exact partition_degen it0 it1 rest x y w h horizontal hle

/-- Concrete zero-weight items used in counterexamples. -/
def cA : Rect := ⟨0, 0, 0, 0, ("A").toList, none, none, none, some 0⟩

/-- Second concrete zero-weight item. -/
def cB : Rect := ⟨0, 0, 0, 0, ("B").toList, none, none, none, some 0⟩

lemma totalWeight_cAcB : totalWeight [cA, cB] = 0 := by
  simp [totalWeight_cons, totalWeight_nil, rectWeight, cA, cB]

lemma partition_cAcB_eval :
    partition [cA, cB] 0 0 100 50 false =
      [place cA 0 0 50 50, place cB 50 0 50 50] := by
  have h50 : ((100 : ℝ) / 2) = ((50 : ℕ) : ℝ) := by norm_num
  rw [partition_degen cA cB [] 0 0 100 50 false (le_of_eq totalWeight_cAcB)]
  simp only [List.length_cons, List.length_nil, h50, Int.floor_natCast, Int.ceil_natCast]
  norm_num [partition_single]

lemma evenSplit_cAcB_eval :
    evenSplitCurrentAxis [cA, cB] 0 0 100 50 false =
      [place cA 0 0 100 25, place cB 0 25 100 25] := by
  have h25 : ((50 : ℝ) / 2) = ((25 : ℕ) : ℝ) := by norm_num
  rw [evenSplitCurrentAxis, if_neg (by simp)]
  simp only [List.length_cons, List.length_nil, h25, Int.floor_natCast, Int.ceil_natCast]
  norm_num [partition_single]

/-- Counterexample to C3 as stated: with two zero-weight items, a 100 by 50
box and horizontal = false, the claim predicts an even split along the
current (vertical) axis, but partition splits along the width axis. -/
theorem partition_degenerate_counterexample :
    partition [cA, cB] 0 0 100 50 false ≠ evenSplitCurrentAxis [cA, cB] 0 0 100 50 false := by
  rw [partition_cAcB_eval, evenSplit_cAcB_eval]
  intro heq
  have hw := congrArg (fun l : List Rect => (l.map Rect.width)) heq
  simp only [List.map_cons, List.map_nil, place] at hw
  have : (50 : ℝ) = 100 := by injection hw
  norm_num at this

/-- Witness for C3 (amended) at a concrete input. -/
theorem partition_degenerate_width_split_witness :
    2 ≤ ([cA, cB]).length ∧ totalWeight [cA, cB] ≤ 0 ∧
    partition [cA, cB] 0 0 100 50 false =
      partition (([cA, cB]).take (([cA, cB]).length / 2)) 0 0 (⌊(100 : ℝ) / 2⌋ : ℝ) 50 (!false) ++
      partition (([cA, cB]).drop (([cA, cB]).length / 2)) (0 + (⌊(100 : ℝ) / 2⌋ : ℝ)) 0
        (⌈(100 : ℝ) / 2⌉ : ℝ) 50 (!false) :=
  ⟨by simp, le_of_eq totalWeight_cAcB,
   partition_degenerate_width_split [cA, cB] 0 0 100 50 false (by simp)
     (le_of_eq totalWeight_cAcB)⟩

/-! Claim C2: the general-case split index and allocation. -/

lemma firstReach_some_spec (total : ℝ) (l : List Rect) (acc : ℝ) (j : ℕ)
    (h : firstReach total l acc = some j) :
    j < l.length ∧ total / 2 ≤ acc + totalWeight (l.take (j + 1)) ∧
      ∀ i < j, acc + totalWeight (l.take (i + 1)) < total / 2 := by
  induction l generalizing acc j with
  | nil => simp [firstReach] at h
  | cons it t ih =>
    rw [firstReach] at h
    by_cases hc : total / 2 ≤ acc + rectWeight it
    · rw [if_pos hc] at h
      obtain rfl : (0 : ℕ) = j := by simpa using h
      refine ⟨by simp, ?_, by simp⟩
      simpa [totalWeight_cons, totalWeight_nil] using hc
    · rw [if_neg hc] at h
      obtain ⟨j', hj', rfl⟩ : ∃ j', firstReach total t (acc + rectWeight it) = some j' ∧ j = j' + 1 := by
        cases hfr : firstReach total t (acc + rectWeight it) with
        | none => rw [hfr] at h; simp at h
        | some v => rw [hfr] at h; simp at h; exact ⟨v, rfl, h.symm⟩
      obtain ⟨h1, h2, h3⟩ := ih (acc + rectWeight it) j' hj'
      refine ⟨by simpa using Nat.succ_lt_succ h1, ?_, ?_⟩
      · rw [List.take_succ_cons, totalWeight_cons, ← add_assoc]
        exact h2
      · intro i hi
        cases i with
        | zero =>
          simpa [totalWeight_cons, totalWeight_nil] using lt_of_not_ge hc
        | succ i' =>
          have := h3 i' (by omega)
          rw [List.take_succ_cons, totalWeight_cons, ← add_assoc]
          exact this

lemma firstReach_exists (total : ℝ) (l : List Rect) (acc : ℝ)
    (h : total / 2 ≤ acc + totalWeight l) (hne : l ≠ []) :
    ∃ j, firstReach total l acc = some j := by
  induction l generalizing acc with
  | nil => exact absurd rfl hne
  | cons it t ih =>
    by_cases hc : total / 2 ≤ acc + rectWeight it
    · exact ⟨0, by rw [firstReach, if_pos hc]⟩
    · rcases t with _ | ⟨it1, t'⟩
      · exact absurd (by simpa [totalWeight_cons, totalWeight_nil] using h) hc
      · obtain ⟨j, hj⟩ := ih (acc + rectWeight it)
          (by rw [totalWeight_cons] at h; linarith) (by simp)
        exact ⟨j + 1, by rw [firstReach, if_neg hc, hj]; rfl⟩

/-- Modelled from the spec: the inclusive prefix indices whose cumulative
weight reaches half the total. -/
def halfReachSet (items : List Rect) : Set ℕ :=
  {i : ℕ | totalWeight items / 2 ≤ totalWeight (items.take (i + 1))}

/-- Modelled from the spec: the smallest prefix index at which the cumulative
weight reaches half the total, clamped so that neither group is empty. -/
noncomputable def specSplitIdx (items : List Rect) : ℕ :=
  min (sInf (halfReachSet items)) (items.length - 2)

lemma splitIdx_eq_spec (items : List Rect) (h2 : 2 ≤ items.length)
    (hpos : 0 < totalWeight items) :
    splitIdx items = specSplitIdx items := by
  obtain ⟨j, hj⟩ := firstReach_exists (totalWeight items) items 0 (by linarith)
    (by intro h; rw [h] at h2; simp at h2)
  obtain ⟨hjlen, hjreach, hjmin⟩ := firstReach_some_spec _ _ _ _ hj
  have hmem : j ∈ halfReachSet items := by simpa [halfReachSet] using hjreach
  have hsinf : sInf (halfReachSet items) = j := by
    refine le_antisymm (Nat.sInf_le hmem) (le_of_not_lt fun hlt => ?_)
    have hin : totalWeight items / 2 ≤
        totalWeight (items.take (sInf (halfReachSet items) + 1)) :=
      Nat.sInf_mem (Set.nonempty_of_mem hmem)
    have := hjmin _ hlt
    simp only [zero_add] at this
    linarith
  rw [splitIdx, specSplitIdx, hsinf, hj]
  rfl

/-- C2: in partition's general case (at least two items, total weight > 0),
the split index is the smallest prefix index at which the cumulative weight
reaches half the total, clamped so that neither group A (the inclusive
prefix) nor group B (the remainder) is empty; group A gets a share of the
current axis proportional to its weight share, floored at MIN_TILE, and both
groups are recursed into with the orientation flipped, A first, B second. -/
theorem partition_general_split (items : List Rect) (x y w h : ℝ) (horizontal : Bool)
    (h2 : 2 ≤ items.length) (hpos : 0 < totalWeight items) :
    splitIdx items = specSplitIdx items ∧
    items.take (specSplitIdx items + 1) ≠ [] ∧
    items.drop (specSplitIdx items + 1) ≠ [] ∧
    partition items x y w h horizontal =
      (if horizontal then
        partition (items.take (specSplitIdx items + 1)) x y
          (max MIN_TILE (⌊w * totalWeight (items.take (specSplitIdx items + 1)) /
            totalWeight items⌋ : ℝ)) h (!horizontal) ++
        partition (items.drop (specSplitIdx items + 1))
          (x + max MIN_TILE (⌊w * totalWeight (items.take (specSplitIdx items + 1)) /
            totalWeight items⌋ : ℝ)) y
          (safe (w - max MIN_TILE (⌊w * totalWeight (items.take (specSplitIdx items + 1)) /
            totalWeight items⌋ : ℝ))) h (!horizontal)
      else
        partition (items.take (specSplitIdx items + 1)) x y w
          (max MIN_TILE (⌊h * totalWeight (items.take (specSplitIdx items + 1)) /
            totalWeight items⌋ : ℝ)) (!horizontal) ++
        partition (items.drop (specSplitIdx items + 1)) x
          (y + max MIN_TILE (⌊h * totalWeight (items.take (specSplitIdx items + 1)) /
            totalWeight items⌋ : ℝ)) w
          (safe (h - max MIN_TILE (⌊h * totalWeight (items.take (specSplitIdx items + 1)) /
            totalWeight items⌋ : ℝ))) (!horizontal)) := by
  have hidx := splitIdx_eq_spec items h2 hpos
  have hklen : specSplitIdx items ≤ items.length - 2 := Nat.min_le_right _ _
  refine ⟨hidx, ?_, ?_, ?_⟩
  · intro hnil
    have hlen : (items.take (specSplitIdx items + 1)).length = 0 := by rw [hnil]; rfl
    rw [List.length_take] at hlen
    omega
  · intro hnil
    have hlen : (items.drop (specSplitIdx items + 1)).length = 0 := by rw [hnil]; rfl
    rw [List.length_drop] at hlen
    omega
  · rcases items with _ | ⟨it0, _ | ⟨it1, rest⟩⟩
    · simp at h2
    · simp at h2
    · rcases horizontal with _ | _
      · rw [partition_general_v it0 it1 rest x y w h hpos, ← hidx]
        simp [safe]
      · rw [partition_general_h it0 it1 rest x y w h hpos, ← hidx]
        simp [safe]

/-- Concrete unit-weight item used in witnesses. -/
def uA : Rect := ⟨0, 0, 0, 0, ("A").toList, none, none, none, some 1⟩

/-- Second concrete unit-weight item. -/
def uB : Rect := ⟨0, 0, 0, 0, ("B").toList, none, none, none, some 1⟩

lemma totalWeight_uAuB : totalWeight [uA, uB] = 2 := by
  simp [totalWeight_cons, totalWeight_nil, rectWeight, uA, uB]
  norm_num

/-- Witness for C2 at a concrete input. -/
theorem partition_general_split_witness :
    2 ≤ ([uA, uB]).length ∧ 0 < totalWeight [uA, uB] ∧
    splitIdx [uA, uB] = specSplitIdx [uA, uB] :=
  ⟨by simp, by rw [totalWeight_uAuB]; norm_num,
   (partition_general_split [uA, uB] 0 0 100 100 true (by simp)
     (by rw [totalWeight_uAuB]; norm_num)).1⟩

/-! Claim C4: the minimum tile floor. -/

lemma MIN_TILE_le_safe (n : ℝ) : MIN_TILE ≤ safe n := le_max_left _ _

lemma splitIdx_le_sub2 (items : List Rect) : splitIdx items ≤ items.length - 2 :=
  Nat.min_le_right _ _

lemma partition_min_tile_aux (n : ℕ) :
    ∀ (items : List Rect), items.length = n → (∀ it ∈ items, 0 < rectWeight it) →
    ∀ (x y w h : ℝ) (horizontal : Bool), ∀ r ∈ partition items x y w h horizontal,
      min MIN_TILE w ≤ r.width ∧ min MIN_TILE h ≤ r.height := by
  induction n using Nat.strong_induction_on with
  | _ n IH =>
    intro items hlen hw x y w h horizontal r hr
    rcases items with _ | ⟨it0, _ | ⟨it1, rest⟩⟩
    · rw [partition_nil] at hr
      simp at hr
    · rw [partition_single] at hr
      simp at hr
      subst hr
      exact ⟨by simp [place, min_le_right], by simp [place, min_le_right]⟩
    · have hpos : 0 < totalWeight (it0 :: it1 :: rest) :=
        totalWeight_pos _ (by simp) hw
      have hk := splitIdx_le_sub2 (it0 :: it1 :: rest)
      have hlena : ((it0 :: it1 :: rest).take (splitIdx (it0 :: it1 :: rest) + 1)).length < n := by
        rw [List.length_take]
        simp only [List.length_cons] at hlen hk ⊢
        omega
      have hlenb : ((it0 :: it1 :: rest).drop (splitIdx (it0 :: it1 :: rest) + 1)).length < n := by
        rw [List.length_drop]
        simp only [List.length_cons] at hlen ⊢
        omega
      have hwa : ∀ it ∈ (it0 :: it1 :: rest).take (splitIdx (it0 :: it1 :: rest) + 1),
          0 < rectWeight it := fun it hit => hw it (List.mem_of_mem_take hit)
      have hwb : ∀ it ∈ (it0 :: it1 :: rest).drop (splitIdx (it0 :: it1 :: rest) + 1),
          0 < rectWeight it := fun it hit => hw it (List.mem_of_mem_drop hit)
      rcases horizontal with _ | _
      · rw [partition_general_v it0 it1 rest x y w h hpos] at hr
        rcases List.mem_append.mp hr with hra | hrb
        · obtain ⟨h1, h2⟩ := IH _ hlena _ rfl hwa _ _ _ _ _ _ hra
          refine ⟨h1, le_trans (min_le_left _ _) ?_⟩
          exact le_trans (le_of_eq (min_eq_left (MIN_TILE_le_safe _)).symm) h2
        · obtain ⟨h1, h2⟩ := IH _ hlenb _ rfl hwb _ _ _ _ _ _ hrb
          refine ⟨h1, le_trans (min_le_left _ _) ?_⟩
          exact le_trans (le_of_eq (min_eq_left (MIN_TILE_le_safe _)).symm) h2
      · rw [partition_general_h it0 it1 rest x y w h hpos] at hr
        rcases List.mem_append.mp hr with hra | hrb
        · obtain ⟨h1, h2⟩ := IH _ hlena _ rfl hwa _ _ _ _ _ _ hra
          refine ⟨le_trans (min_le_left _ _) ?_, h2⟩
          exact le_trans (le_of_eq (min_eq_left (MIN_TILE_le_safe _)).symm) h1
        · obtain ⟨h1, h2⟩ := IH _ hlenb _ rfl hwb _ _ _ _ _ _ hrb
          refine ⟨le_trans (min_le_left _ _) ?_, h2⟩
          exact le_trans (le_of_eq (min_eq_left (MIN_TILE_le_safe _)).symm) h1

/-- C4 (amended): whenever every item weight is positive (so the degenerate
even-split fallback, which does not clamp, is never taken), no returned
rectangle has width or height below MIN_TILE = 22 except when the bounding
box itself is smaller than MIN_TILE along that dimension: every returned
dimension is at least min(MIN_TILE, corresponding box dimension). -/
theorem partition_min_tile (items : List Rect) (x y w h : ℝ) (horizontal : Bool)
    (hw : ∀ it ∈ items, 0 < rectWeight it) :
    ∀ r ∈ partition items x y w h horizontal,
      min MIN_TILE w ≤ r.width ∧ min MIN_TILE h ≤ r.height :=
  partition_min_tile_aux items.length items rfl hw x y w h horizontal

lemma partition_cAcB_30_eval :
    partition [cA, cB] 0 0 30 30 true = [place cA 0 0 15 30, place cB 15 0 15 30] := by
  have h15 : ((30 : ℝ) / 2) = ((15 : ℕ) : ℝ) := by norm_num
  rw [partition_degen cA cB [] 0 0 30 30 true (le_of_eq totalWeight_cAcB)]
  simp only [List.length_cons, List.length_nil, h15, Int.floor_natCast, Int.ceil_natCast]
  norm_num [partition_single]

/-- Counterexample to C4 as stated: with two zero-weight items in a 30 by 30
box (both dimensions at least MIN_TILE = 22), partition takes the degenerate
even-split path, which applies no minimum clamp, and returns a rectangle of
width 15 < 22. -/
theorem partition_min_tile_counterexample :
    MIN_TILE ≤ (30 : ℝ) ∧ ∃ r ∈ partition [cA, cB] 0 0 30 30 true, r.width < MIN_TILE := by
  refine ⟨by norm_num [MIN_TILE], place cA 0 0 15 30, ?_, ?_⟩
  · rw [partition_cAcB_30_eval]
    simp
  · simp only [place, MIN_TILE]
    norm_num

/-- Witness for C4 (amended) at a concrete input. -/
theorem partition_min_tile_witness :
    (∀ it ∈ [uA, uB], 0 < rectWeight it) ∧
    ∀ r ∈ partition [uA, uB] 0 0 100 100 true,
      min MIN_TILE (100 : ℝ) ≤ r.width ∧ min MIN_TILE (100 : ℝ) ≤ r.height := by
  have hw : ∀ it ∈ [uA, uB], 0 < rectWeight it := by
    intro it hit
    simp only [List.mem_cons, List.not_mem_nil, or_false] at hit
    rcases hit with rfl | rfl <;> simp [rectWeight, uA, uB]
  exact ⟨hw, partition_min_tile [uA, uB] 0 0 100 100 true hw⟩

/-! Claim C1: exact tiling. -/

/-- Membership of a point in the half-open rectangle of a Rect. -/
def inRect (px py : ℝ) (r : Rect) : Prop :=
  r.x ≤ px ∧ px < r.x + r.width ∧ r.y ≤ py ∧ py < r.y + r.height

/-- Two rectangles share no point. -/
def rectDisjoint (r s : Rect) : Prop :=
  ∀ px py : ℝ, ¬(inRect px py r ∧ inRect px py s)

/-- The rectangle lies inside the given box. -/
def containedIn (r : Rect) (x y w h : ℝ) : Prop :=
  x ≤ r.x ∧ r.x + r.width ≤ x + w ∧ y ≤ r.y ∧ r.y + r.height ≤ y + h

/-- Screen area of a rectangle. -/
def rectArea (r : Rect) : ℝ := r.width * r.height

/-- The rectangles exactly tile the box: each lies inside it, no two overlap,
no point of the box is uncovered, and the areas sum to the box area. -/
def TilesExactly (rs : List Rect) (x y w h : ℝ) : Prop :=
  (∀ r ∈ rs, containedIn r x y w h) ∧
  rs.Pairwise rectDisjoint ∧
  (∀ px py : ℝ, x ≤ px → px < x + w → y ≤ py → py < y + h → ∃ r ∈ rs, inRect px py r) ∧
  (rs.map rectArea).sum = w * h

open scoped Classical in
/-- The side conditions under which partition's arithmetic is exact: in the
degenerate branch the split dimension satisfies floor(w/2) + ceil(w/2) = w,
and in the general branch neither safe-clamp fires (both allocated lengths
are at least MIN_TILE after flooring) and the remainder length equals its own
floor, recursively along the same splits partition makes. -/
noncomputable def NoClamp : List Rect → ℝ → ℝ → Bool → Prop
  | [], _, _, _ => True
  | [_], _, _, _ => True
  | it0 :: it1 :: rest, w, h, horizontal =>
    let items := it0 :: it1 :: rest
    if totalWeight items ≤ 0 then
      ((⌊w / 2⌋ : ℝ) + (⌈w / 2⌉ : ℝ) = w) ∧
      NoClamp (items.take (items.length / 2)) (⌊w / 2⌋ : ℝ) h (!horizontal) ∧
      NoClamp (items.drop (items.length / 2)) (⌈w / 2⌉ : ℝ) h (!horizontal)
    else
      let a := items.take (splitIdx items + 1)
      let b := items.drop (splitIdx items + 1)
      if horizontal then
        MIN_TILE ≤ (⌊w * totalWeight a / totalWeight items⌋ : ℝ) ∧
        MIN_TILE ≤ w - (⌊w * totalWeight a / totalWeight items⌋ : ℝ) ∧
        ((⌊w - (⌊w * totalWeight a / totalWeight items⌋ : ℝ)⌋ : ℝ) =
          w - (⌊w * totalWeight a / totalWeight items⌋ : ℝ)) ∧
        NoClamp a (⌊w * totalWeight a / totalWeight items⌋ : ℝ) h (!horizontal) ∧
        NoClamp b (w - (⌊w * totalWeight a / totalWeight items⌋ : ℝ)) h (!horizontal)
      else
        MIN_TILE ≤ (⌊h * totalWeight a / totalWeight items⌋ : ℝ) ∧
        MIN_TILE ≤ h - (⌊h * totalWeight a / totalWeight items⌋ : ℝ) ∧
        ((⌊h - (⌊h * totalWeight a / totalWeight items⌋ : ℝ)⌋ : ℝ) =
          h - (⌊h * totalWeight a / totalWeight items⌋ : ℝ)) ∧
        NoClamp a w (⌊h * totalWeight a / totalWeight items⌋ : ℝ) (!horizontal) ∧
        NoClamp b w (h - (⌊h * totalWeight a / totalWeight items⌋ : ℝ)) (!horizontal)
termination_by items _ _ _ => items.length
decreasing_by
  all_goals simp_all [splitIdx, List.length_take, List.length_drop]
  all_goals omega

lemma NoClamp_single (it : Rect) (w h : ℝ) (horizontal : Bool) :
    NoClamp [it] w h horizontal := by
  rw [NoClamp]
  trivial

lemma NoClamp_degen (it0 it1 : Rect) (rest : List Rect) (w h : ℝ) (horizontal : Bool)
    (hle : totalWeight (it0 :: it1 :: rest) ≤ 0) :
    NoClamp (it0 :: it1 :: rest) w h horizontal =
      (((⌊w / 2⌋ : ℝ) + (⌈w / 2⌉ : ℝ) = w) ∧
       NoClamp ((it0 :: it1 :: rest).take ((it0 :: it1 :: rest).length / 2)) (⌊w / 2⌋ : ℝ) h (!horizontal) ∧
       NoClamp ((it0 :: it1 :: rest).drop ((it0 :: it1 :: rest).length / 2)) (⌈w / 2⌉ : ℝ) h (!horizontal)) := by
  rw [NoClamp]
  simp [hle]

lemma NoClamp_general_h (it0 it1 : Rect) (rest : List Rect) (w h : ℝ)
    (hpos : 0 < totalWeight (it0 :: it1 :: rest)) :
    NoClamp (it0 :: it1 :: rest) w h true =
      (MIN_TILE ≤ (⌊w * totalWeight ((it0 :: it1 :: rest).take (splitIdx (it0 :: it1 :: rest) + 1)) /
          totalWeight (it0 :: it1 :: rest)⌋ : ℝ) ∧
       MIN_TILE ≤ w - (⌊w * totalWeight ((it0 :: it1 :: rest).take (splitIdx (it0 :: it1 :: rest) + 1)) /
          totalWeight (it0 :: it1 :: rest)⌋ : ℝ) ∧
       ((⌊w - (⌊w * totalWeight ((it0 :: it1 :: rest).take (splitIdx (it0 :: it1 :: rest) + 1)) /
          totalWeight (it0 :: it1 :: rest)⌋ : ℝ)⌋ : ℝ) =
         w - (⌊w * totalWeight ((it0 :: it1 :: rest).take (splitIdx (it0 :: it1 :: rest) + 1)) /
          totalWeight (it0 :: it1 :: rest)⌋ : ℝ)) ∧
       NoClamp ((it0 :: it1 :: rest).take (splitIdx (it0 :: it1 :: rest) + 1))
         (⌊w * totalWeight ((it0 :: it1 :: rest).take (splitIdx (it0 :: it1 :: rest) + 1)) /
          totalWeight (it0 :: it1 :: rest)⌋ : ℝ) h false ∧
       NoClamp ((it0 :: it1 :: rest).drop (splitIdx (it0 :: it1 :: rest) + 1))
         (w - (⌊w * totalWeight ((it0 :: it1 :: rest).take (splitIdx (it0 :: it1 :: rest) + 1)) /
          totalWeight (it0 :: it1 :: rest)⌋ : ℝ)) h false) := by
  rw [NoClamp]
  simp [not_le.mpr hpos]

lemma NoClamp_general_v (it0 it1 : Rect) (rest : List Rect) (w h : ℝ)
    (hpos : 0 < totalWeight (it0 :: it1 :: rest)) :
    NoClamp (it0 :: it1 :: rest) w h false =
      (MIN_TILE ≤ (⌊h * totalWeight ((it0 :: it1 :: rest).take (splitIdx (it0 :: it1 :: rest) + 1)) /
          totalWeight (it0 :: it1 :: rest)⌋ : ℝ) ∧
       MIN_TILE ≤ h - (⌊h * totalWeight ((it0 :: it1 :: rest).take (splitIdx (it0 :: it1 :: rest) + 1)) /
          totalWeight (it0 :: it1 :: rest)⌋ : ℝ) ∧
       ((⌊h - (⌊h * totalWeight ((it0 :: it1 :: rest).take (splitIdx (it0 :: it1 :: rest) + 1)) /
          totalWeight (it0 :: it1 :: rest)⌋ : ℝ)⌋ : ℝ) =
         h - (⌊h * totalWeight ((it0 :: it1 :: rest).take (splitIdx (it0 :: it1 :: rest) + 1)) /
          totalWeight (it0 :: it1 :: rest)⌋ : ℝ)) ∧
       NoClamp ((it0 :: it1 :: rest).take (splitIdx (it0 :: it1 :: rest) + 1)) w
         (⌊h * totalWeight ((it0 :: it1 :: rest).take (splitIdx (it0 :: it1 :: rest) + 1)) /
          totalWeight (it0 :: it1 :: rest)⌋ : ℝ) true ∧
       NoClamp ((it0 :: it1 :: rest).drop (splitIdx (it0 :: it1 :: rest) + 1)) w
         (h - (⌊h * totalWeight ((it0 :: it1 :: rest).take (splitIdx (it0 :: it1 :: rest) + 1)) /
          totalWeight (it0 :: it1 :: rest)⌋ : ℝ)) true) := by
  rw [NoClamp]
  simp [not_le.mpr hpos]

lemma tiles_single (it : Rect) (x y w h : ℝ) :
    TilesExactly [place it x y w h] x y w h := by
  refine ⟨?_, by simp, ?_, by simp [rectArea, place]⟩
  · intro r hr
    simp only [List.mem_singleton] at hr
    subst hr
    exact ⟨le_refl _, le_refl _, le_refl _, le_refl _⟩
  · intro px py h1 h2 h3 h4
    exact ⟨place it x y w h, by simp, h1, h2, h3, h4⟩

lemma tiles_glue_h (L1 L2 : List Rect) (x y w h wA : ℝ)
    (h0 : 0 ≤ wA) (hle : wA ≤ w)
    (t1 : TilesExactly L1 x y wA h) (t2 : TilesExactly L2 (x + wA) y (w - wA) h) :
    TilesExactly (L1 ++ L2) x y w h := by
  obtain ⟨c1, p1, v1, a1⟩ := t1
  obtain ⟨c2, p2, v2, a2⟩ := t2
  refine ⟨?_, ?_, ?_, ?_⟩
  · intro r hr
    rcases List.mem_append.mp hr with hr | hr
    · obtain ⟨e1, e2, e3, e4⟩ := c1 r hr
      exact ⟨e1, by linarith, e3, e4⟩
    · obtain ⟨e1, e2, e3, e4⟩ := c2 r hr
      exact ⟨by linarith, by linarith, e3, e4⟩
  · rw [List.pairwise_append]
    refine ⟨p1, p2, ?_⟩
    intro r1 hr1 r2 hr2 px py ⟨m1, m2⟩
    obtain ⟨e1, e2, _, _⟩ := c1 r1 hr1
    obtain ⟨f1, f2, _, _⟩ := c2 r2 hr2
    obtain ⟨m11, m12, _, _⟩ := m1
    obtain ⟨m21, m22, _, _⟩ := m2
    linarith
  · intro px py h1 h2 h3 h4
    by_cases hcase : px < x + wA
    · obtain ⟨r, hr, hin⟩ := v1 px py h1 hcase h3 h4
      exact ⟨r, List.mem_append_left _ hr, hin⟩
    · obtain ⟨r, hr, hin⟩ := v2 px py (by linarith [not_lt.mp hcase]) (by linarith) h3 h4
      exact ⟨r, List.mem_append_right _ hr, hin⟩
  · rw [List.map_append, List.sum_append, a1, a2]
    ring

lemma tiles_glue_v (L1 L2 : List Rect) (x y w h hA : ℝ)
    (h0 : 0 ≤ hA) (hle : hA ≤ h)
    (t1 : TilesExactly L1 x y w hA) (t2 : TilesExactly L2 x (y + hA) w (h - hA)) :
    TilesExactly (L1 ++ L2) x y w h := by
  obtain ⟨c1, p1, v1, a1⟩ := t1
  obtain ⟨c2, p2, v2, a2⟩ := t2
  refine ⟨?_, ?_, ?_, ?_⟩
  · intro r hr
    rcases List.mem_append.mp hr with hr | hr
    · obtain ⟨e1, e2, e3, e4⟩ := c1 r hr
      exact ⟨e1, e2, e3, by linarith⟩
    · obtain ⟨e1, e2, e3, e4⟩ := c2 r hr
      exact ⟨e1, e2, by linarith, by linarith⟩
  · rw [List.pairwise_append]
    refine ⟨p1, p2, ?_⟩
    intro r1 hr1 r2 hr2 px py ⟨m1, m2⟩
    obtain ⟨_, _, e3, e4⟩ := c1 r1 hr1
    obtain ⟨_, _, f3, f4⟩ := c2 r2 hr2
    obtain ⟨_, _, m13, m14⟩ := m1
    obtain ⟨_, _, m23, m24⟩ := m2
    linarith
  · intro px py h1 h2 h3 h4
    by_cases hcase : py < y + hA
    · obtain ⟨r, hr, hin⟩ := v1 px py h1 h2 h3 hcase
      exact ⟨r, List.mem_append_left _ hr, hin⟩
    · obtain ⟨r, hr, hin⟩ := v2 px py h1 h2 (by linarith [not_lt.mp hcase]) (by linarith)
      exact ⟨r, List.mem_append_right _ hr, hin⟩
  · rw [List.map_append, List.sum_append, a1, a2]
    ring

lemma partition_tiles_aux (n : ℕ) :
    ∀ (items : List Rect), items.length = n → items ≠ [] →
    ∀ (x y w h : ℝ) (horizontal : Bool), 0 ≤ w → 0 ≤ h →
    NoClamp items w h horizontal →
    TilesExactly (partition items x y w h horizontal) x y w h := by
  induction n using Nat.strong_induction_on with
  | _ n IH =>
    intro items hlen hne x y w h horizontal hw0 hh0 hnc
    rcases items with _ | ⟨it0, _ | ⟨it1, rest⟩⟩
    · exact absurd rfl hne
    · rw [partition_single]
      exact tiles_single it0 x y w h
    · have hMT22 : MIN_TILE = (22 : ℝ) := rfl
      have hk := splitIdx_le_sub2 (it0 :: it1 :: rest)
      by_cases htot : totalWeight (it0 :: it1 :: rest) ≤ 0
      · rw [partition_degen it0 it1 rest x y w h horizontal htot]
        rw [NoClamp_degen it0 it1 rest w h horizontal htot] at hnc
        obtain ⟨hsum, hnc1, hnc2⟩ := hnc
        have hw2 : (0 : ℝ) ≤ w / 2 := by linarith
        have hfl0 : (0 : ℝ) ≤ (⌊w / 2⌋ : ℝ) := by exact_mod_cast Int.floor_nonneg.mpr hw2
        have hflw : (⌊w / 2⌋ : ℝ) ≤ w := le_trans (Int.floor_le _) (by linarith)
        have hcl0 : (0 : ℝ) ≤ (⌈w / 2⌉ : ℝ) := by exact_mod_cast Int.ceil_nonneg hw2
        have hlt1 : ((it0 :: it1 :: rest).take ((it0 :: it1 :: rest).length / 2)).length < n := by
          rw [List.length_take]
          simp only [List.length_cons] at hlen ⊢
          omega
        have hlt2 : ((it0 :: it1 :: rest).drop ((it0 :: it1 :: rest).length / 2)).length < n := by
          rw [List.length_drop]
          simp only [List.length_cons] at hlen ⊢
          omega
        have hne1 : ((it0 :: it1 :: rest).take ((it0 :: it1 :: rest).length / 2)) ≠ [] := by
          apply List.ne_nil_of_length_pos
          rw [List.length_take]
          simp only [List.length_cons]
          omega
        have hne2 : ((it0 :: it1 :: rest).drop ((it0 :: it1 :: rest).length / 2)) ≠ [] := by
          apply List.ne_nil_of_length_pos
          rw [List.length_drop]
          simp only [List.length_cons]
          omega
        have hceq : (⌈w / 2⌉ : ℝ) = w - (⌊w / 2⌋ : ℝ) := by linarith
        rw [hceq]
        rw [hceq] at hnc2
        have hrem0 : (0 : ℝ) ≤ w - (⌊w / 2⌋ : ℝ) := by linarith
        have t1 := IH _ hlt1 _ rfl hne1 x y (⌊w / 2⌋ : ℝ) h (!horizontal) hfl0 hh0 hnc1
        have t2 := IH _ hlt2 _ rfl hne2 (x + (⌊w / 2⌋ : ℝ)) y (w - (⌊w / 2⌋ : ℝ)) h
          (!horizontal) hrem0 hh0 hnc2
        exact tiles_glue_h _ _ x y w h _ hfl0 hflw t1 t2
      · have hpos : 0 < totalWeight (it0 :: it1 :: rest) := lt_of_not_ge htot
        have hlt1 : ((it0 :: it1 :: rest).take (splitIdx (it0 :: it1 :: rest) + 1)).length < n := by
          rw [List.length_take]
          simp only [List.length_cons] at hlen hk ⊢
          omega
        have hlt2 : ((it0 :: it1 :: rest).drop (splitIdx (it0 :: it1 :: rest) + 1)).length < n := by
          rw [List.length_drop]
          simp only [List.length_cons] at hlen ⊢
          omega
        have hne1 : ((it0 :: it1 :: rest).take (splitIdx (it0 :: it1 :: rest) + 1)) ≠ [] := by
          apply List.ne_nil_of_length_pos
          rw [List.length_take]
          simp only [List.length_cons]
          omega
        have hne2 : ((it0 :: it1 :: rest).drop (splitIdx (it0 :: it1 :: rest) + 1)) ≠ [] := by
          apply List.ne_nil_of_length_pos
          rw [List.length_drop]
          simp only [List.length_cons] at hk ⊢
          omega
        rcases horizontal with _ | _
        · rw [partition_general_v it0 it1 rest x y w h hpos]
          rw [NoClamp_general_v it0 it1 rest w h hpos] at hnc
          obtain ⟨hA1, hA2, hA3, hnca, hncb⟩ := hnc
          have hsafeA : safe (h * totalWeight ((it0 :: it1 :: rest).take (splitIdx (it0 :: it1 :: rest) + 1)) /
              totalWeight (it0 :: it1 :: rest)) =
              (⌊h * totalWeight ((it0 :: it1 :: rest).take (splitIdx (it0 :: it1 :: rest) + 1)) /
              totalWeight (it0 :: it1 :: rest)⌋ : ℝ) := max_eq_right hA1
          have hsafeB : safe (h - (⌊h * totalWeight ((it0 :: it1 :: rest).take (splitIdx (it0 :: it1 :: rest) + 1)) /
              totalWeight (it0 :: it1 :: rest)⌋ : ℝ)) =
              h - (⌊h * totalWeight ((it0 :: it1 :: rest).take (splitIdx (it0 :: it1 :: rest) + 1)) /
              totalWeight (it0 :: it1 :: rest)⌋ : ℝ) := by
            rw [safe, hA3]
            exact max_eq_right hA2
          rw [hsafeA, hsafeB]
          have hfl0 : (0 : ℝ) ≤ (⌊h * totalWeight ((it0 :: it1 :: rest).take (splitIdx (it0 :: it1 :: rest) + 1)) /
              totalWeight (it0 :: it1 :: rest)⌋ : ℝ) := by
            rw [hMT22] at hA1
            linarith
          have hflh : (⌊h * totalWeight ((it0 :: it1 :: rest).take (splitIdx (it0 :: it1 :: rest) + 1)) /
              totalWeight (it0 :: it1 :: rest)⌋ : ℝ) ≤ h := by
            rw [hMT22] at hA2
            linarith
          have hrem0 : (0 : ℝ) ≤ h - (⌊h * totalWeight ((it0 :: it1 :: rest).take (splitIdx (it0 :: it1 :: rest) + 1)) /
              totalWeight (it0 :: it1 :: rest)⌋ : ℝ) := by
            rw [hMT22] at hA2
            linarith
          have t1 := IH _ hlt1 _ rfl hne1 x y w
            (⌊h * totalWeight ((it0 :: it1 :: rest).take (splitIdx (it0 :: it1 :: rest) + 1)) /
              totalWeight (it0 :: it1 :: rest)⌋ : ℝ) true hw0 hfl0 hnca
          have t2 := IH _ hlt2 _ rfl hne2 x
            (y + (⌊h * totalWeight ((it0 :: it1 :: rest).take (splitIdx (it0 :: it1 :: rest) + 1)) /
              totalWeight (it0 :: it1 :: rest)⌋ : ℝ)) w
            (h - (⌊h * totalWeight ((it0 :: it1 :: rest).take (splitIdx (it0 :: it1 :: rest) + 1)) /
              totalWeight (it0 :: it1 :: rest)⌋ : ℝ)) true hw0 hrem0 hncb
          exact tiles_glue_v _ _ x y w h _ hfl0 hflh t1 t2
        · rw [partition_general_h it0 it1 rest x y w h hpos]
          rw [NoClamp_general_h it0 it1 rest w h hpos] at hnc
          obtain ⟨hA1, hA2, hA3, hnca, hncb⟩ := hnc
          have hsafeA : safe (w * totalWeight ((it0 :: it1 :: rest).take (splitIdx (it0 :: it1 :: rest) + 1)) /
              totalWeight (it0 :: it1 :: rest)) =
              (⌊w * totalWeight ((it0 :: it1 :: rest).take (splitIdx (it0 :: it1 :: rest) + 1)) /
              totalWeight (it0 :: it1 :: rest)⌋ : ℝ) := max_eq_right hA1
          have hsafeB : safe (w - (⌊w * totalWeight ((it0 :: it1 :: rest).take (splitIdx (it0 :: it1 :: rest) + 1)) /
              totalWeight (it0 :: it1 :: rest)⌋ : ℝ)) =
              w - (⌊w * totalWeight ((it0 :: it1 :: rest).take (splitIdx (it0 :: it1 :: rest) + 1)) /
              totalWeight (it0 :: it1 :: rest)⌋ : ℝ) := by
            rw [safe, hA3]
            exact max_eq_right hA2
          rw [hsafeA, hsafeB]
          have hfl0 : (0 : ℝ) ≤ (⌊w * totalWeight ((it0 :: it1 :: rest).take (splitIdx (it0 :: it1 :: rest) + 1)) /
              totalWeight (it0 :: it1 :: rest)⌋ : ℝ) := by
            rw [hMT22] at hA1
            linarith
          have hflw : (⌊w * totalWeight ((it0 :: it1 :: rest).take (splitIdx (it0 :: it1 :: rest) + 1)) /
              totalWeight (it0 :: it1 :: rest)⌋ : ℝ) ≤ w := by
            rw [hMT22] at hA2
            linarith
          have hrem0 : (0 : ℝ) ≤ w - (⌊w * totalWeight ((it0 :: it1 :: rest).take (splitIdx (it0 :: it1 :: rest) + 1)) /
              totalWeight (it0 :: it1 :: rest)⌋ : ℝ) := by
            rw [hMT22] at hA2
            linarith
          have t1 := IH _ hlt1 _ rfl hne1 x y
            (⌊w * totalWeight ((it0 :: it1 :: rest).take (splitIdx (it0 :: it1 :: rest) + 1)) /
              totalWeight (it0 :: it1 :: rest)⌋ : ℝ) h false hfl0 hh0 hnca
          have t2 := IH _ hlt2 _ rfl hne2
            (x + (⌊w * totalWeight ((it0 :: it1 :: rest).take (splitIdx (it0 :: it1 :: rest) + 1)) /
              totalWeight (it0 :: it1 :: rest)⌋ : ℝ)) y
            (w - (⌊w * totalWeight ((it0 :: it1 :: rest).take (splitIdx (it0 :: it1 :: rest) + 1)) /
              totalWeight (it0 :: it1 :: rest)⌋ : ℝ)) h false hrem0 hh0 hncb
          exact tiles_glue_h _ _ x y w h _ hfl0 hflw t1 t2

/-- C1 (amended): for every nonempty item list and bounding box with w, h > 0,
PROVIDED the recursion never hits the MIN_TILE clamp and its split lengths
stay exact (the NoClamp side condition), the rectangles returned by partition
exactly tile the box: each lies inside it, no two overlap, no point is
uncovered, and the areas sum to exactly w * h. Without that proviso the claim
fails: see the counterexample, where the MIN_TILE clamp inflates a rectangle
beyond the box. -/
theorem partition_tiling (items : List Rect) (x y w h : ℝ) (horizontal : Bool)
    (hne : items ≠ []) (hw : 0 < w) (hh : 0 < h)
    (hnc : NoClamp items w h horizontal) :
    TilesExactly (partition items x y w h horizontal) x y w h :=
  partition_tiles_aux items.length items rfl hne x y w h horizontal
    (le_of_lt hw) (le_of_lt hh) hnc

lemma rectWeight_uA : rectWeight uA = 1 := by simp [rectWeight, uA]

lemma totalWeight_uA : totalWeight [uA] = 1 := by
  simp [totalWeight_cons, totalWeight_nil, rectWeight, uA]

lemma splitIdx_uAuB : splitIdx [uA, uB] = 0 := by
  rw [splitIdx, totalWeight_uAuB, firstReach, if_pos]
  · rfl
  · rw [rectWeight_uA]
    norm_num

lemma partition_uAuB_30_eval :
    partition [uA, uB] 0 0 30 30 true = [place uA 0 0 22 30, place uB 22 0 22 30] := by
  have hpos : 0 < totalWeight [uA, uB] := by rw [totalWeight_uAuB]; norm_num
  rw [partition_general_h uA uB [] 0 0 30 30 hpos]
  rw [splitIdx_uAuB]
  simp only [List.take_succ_cons, List.take_zero, List.drop_succ_cons, List.drop_zero]
  rw [totalWeight_uAuB, totalWeight_uA]
  have h15 : (30 : ℝ) * 1 / 2 = ((15 : ℕ) : ℝ) := by norm_num
  have hsafe15 : safe ((30 : ℝ) * 1 / 2) = 22 := by
    rw [safe, h15, Int.floor_natCast]
    rw [max_eq_left (by norm_num [MIN_TILE])]
    norm_num [MIN_TILE]
  rw [hsafe15]
  have h8 : (30 : ℝ) - 22 = ((8 : ℕ) : ℝ) := by norm_num
  have hsafe8 : safe ((30 : ℝ) - 22) = 22 := by
    rw [safe, h8, Int.floor_natCast]
    rw [max_eq_left (by norm_num [MIN_TILE])]
    norm_num [MIN_TILE]
  rw [hsafe8]
  rw [partition_single, partition_single]
  norm_num

/-- Counterexample to C1 as stated: two unit-weight items in a 30 by 30 box.
The MIN_TILE clamp inflates both allocations to 22, so a returned rectangle
extends outside the box (no exact tiling) and the areas sum to 1320, not
30 * 30 = 900 — a discrepancy no integer-floor rounding accounts for. -/
theorem partition_tiling_counterexample :
    (∃ r ∈ partition [uA, uB] 0 0 30 30 true, ¬ containedIn r 0 0 30 30) ∧
    ((partition [uA, uB] 0 0 30 30 true).map rectArea).sum ≠ 30 * 30 := by
  constructor
  · refine ⟨place uB 22 0 22 30, by rw [partition_uAuB_30_eval]; simp, fun hc => ?_⟩
    have := hc.2.1
    simp only [place] at this
    norm_num at this
  · rw [partition_uAuB_30_eval]
    simp only [List.map_cons, List.map_nil, List.sum_cons, List.sum_nil, rectArea, place]
    norm_num

lemma noClamp_uAuB_100 : NoClamp [uA, uB] 100 100 true := by
  have hpos : 0 < totalWeight [uA, uB] := by rw [totalWeight_uAuB]; norm_num
  rw [NoClamp_general_h uA uB [] 100 100 hpos]
  rw [splitIdx_uAuB]
  simp only [List.take_succ_cons, List.take_zero, List.drop_succ_cons, List.drop_zero]
  rw [totalWeight_uAuB, totalWeight_uA]
  have h50 : (100 : ℝ) * 1 / 2 = ((50 : ℕ) : ℝ) := by norm_num
  rw [h50, Int.floor_natCast]
  refine ⟨by norm_num [MIN_TILE], by norm_num [MIN_TILE], ?_, NoClamp_single _ _ _ _, NoClamp_single _ _ _ _⟩
  have h50b : (100 : ℝ) - ((((50 : ℕ) : ℤ)) : ℝ) = ((50 : ℕ) : ℝ) := by push_cast; norm_num
  rw [h50b, Int.floor_natCast]
  push_cast
  ring

/-- Witness for C1 (amended) at a concrete input. -/
theorem partition_tiling_witness :
    ([uA, uB] ≠ []) ∧ (0 : ℝ) < 100 ∧ NoClamp [uA, uB] 100 100 true ∧
    TilesExactly (partition [uA, uB] 0 0 100 100 true) 0 0 100 100 :=
  ⟨by simp, by norm_num, noClamp_uAuB_100,
   partition_tiling [uA, uB] 0 0 100 100 true (by simp) (by norm_num) (by norm_num)
     noClamp_uAuB_100⟩

/-! The price store and the websocket message handler, heatmap.tsx lines
18-22, 13-16, 71-83 and 495-523. -/

/-- PriceEntry, heatmap.tsx lines 18-22. -/
structure PriceEntry where
  data : Option Payload
  price : Option ℝ
  priceChange24hr : Option ℝ

/-- SocketMessage, heatmap.tsx lines 13-16 (data absent models both a missing
field and the TypeError a property access on undefined raises, which the
surrounding try/catch swallows). -/
structure SocketMessage where
  type : JSString
  data : Option Payload

/-- Number-or-numeric-string field extraction inside getNumericPrice. -/
def numFromField : Option JSNum → Option ℝ
  | some (JSNum.num x) => some x
  | some (JSNum.numStr x) => some x
  | _ => none

/-- getNumericPrice, heatmap.tsx lines 71-83, on an object payload: probe the
keys price, last, value, p, close in order for a number or numeric string;
null payload or no usable key yields null. -/
def getNumericPrice (d : Option Payload) : Option ℝ :=
  match d with
  | none => none
  | some dd =>
    match numFromField dd.price with
    | some x => some x
    | none =>
      match numFromField dd.last with
      | some x => some x
      | none =>
        match numFromField dd.value with
        | some x => some x
        | none =>
          match numFromField dd.p with
          | some x => some x
          | none => numFromField dd.close

/-- The coercion `Number(d.priceChange24h) || 0`: a number or numeric string
gives its value, everything else (undefined, NaN) gives 0. -/
def jsNumberOrZero : Option JSNum → ℝ
  | some (JSNum.num x) => x
  | some (JSNum.numStr x) => x
  | _ => 0

/-- The nullish-coalescing key extraction `(d.symbol ?? d.id ?? d.ticker)`. -/
def tickerKeyOf (d : Payload) : Option JSString :=
  match d.symbol with
  | some s => some s
  | none =>
    match d.id with
    | some s => some s
    | none => d.ticker

/-- The functional-update write `setPrices((p) => ({ ...p, [key]: entry }))`:
replace the entry at the key in place, or append a new one. -/
def setPrice (prices : List (JSString × PriceEntry)) (key : JSString)
    (e : PriceEntry) : List (JSString × PriceEntry) :=
  if prices.any (fun kv => kv.1 = key) then
    prices.map (fun kv => if kv.1 = key then (key, e) else kv)
  else prices ++ [(key, e)]

/-- The ws.onmessage handler, heatmap.tsx lines 503-513: None models a JSON
parse failure (the catch branch); non-price_update types, absent data and
missing or empty ticker keys all fall through without touching the store. -/
def onSocketMessage (msg : Option SocketMessage)
    (prices : List (JSString × PriceEntry)) : List (JSString × PriceEntry) :=
  match msg with
  | none => prices
  | some m =>
    if m.type ≠ ("price_update").toList then prices
    else
      match m.data with
      | none => prices
      | some d =>
        match tickerKeyOf d with
        | none => prices
        | some key =>
          if key.isEmpty then prices
          else setPrice prices key
            ⟨some d, getNumericPrice (some d), some (jsNumberOrZero d.priceChange24h)⟩

/-- A parsed inbound message is malformed when JSON parsing failed, its type
is not "price_update", or its price_update data carries no ticker key (or an
empty one) under symbol/id/ticker — the absent-data case also covers the
caught TypeError of probing undefined. -/
def malformedMsg : Option SocketMessage → Prop
  | none => True
  | some m =>
    m.type ≠ ("price_update").toList ∨
    (match m.data with
     | none => True
     | some d => tickerKeyOf d = none ∨ tickerKeyOf d = some [])

/-- C8: every malformed inbound socket message — unparseable JSON, a type
other than price_update, or a price_update without a usable ticker key — is
dropped silently: the prices map is returned completely unchanged (and the
handler is a total function, so no error is surfaced). -/
theorem malformed_message_drops (msg : Option SocketMessage)
    (prices : List (JSString × PriceEntry)) (hm : malformedMsg msg) :
    onSocketMessage msg prices = prices := by
  match msg with
  | none => rfl
  | some m =>
    rw [onSocketMessage]
    rcases hm with hm | hm
    · rw [if_pos hm]
    · by_cases ht : m.type = ("price_update").toList
      · rw [if_neg (by simpa using ht)]
        match hd : m.data with
        | none => rfl
        | some d =>
          rw [hd] at hm
          rcases hm with hm | hm <;> simp [hm]
      · rw [if_pos ht]

/-- Witness for C8 at a concrete input: a price_update whose data has no
symbol/id/ticker key. -/
theorem malformed_message_drops_witness :
    malformedMsg (some ⟨("price_update").toList, some {}⟩) ∧
    onSocketMessage (some ⟨("price_update").toList, some {}⟩)
      [(("BTC").toList, ⟨none, some 5, some 1⟩)] =
      [(("BTC").toList, ⟨none, some 5, some 1⟩)] := by
  have hm : malformedMsg (some ⟨("price_update").toList, some {}⟩) := by
    rw [malformedMsg]
    right
    left
    rfl
  exact ⟨hm, malformed_message_drops _ _ hm⟩

/-! Claim C9: explicit crypto hints beat the symbol-pattern rules. -/

/-- C9: for every payload whose explicit assetClass hint is a nonblank string
whose lower-cased trim contains "crypto", and EVERY key — including keys
that would otherwise match the FX pattern — getCategoryFromData resolves the
hint first and returns "Crypto"; and indeed the FX-shaped keys EURUSD and
EUR/USD classify as "FX" when no hint is present. -/
theorem crypto_hint_wins (d : Payload) (key : JSString) (s : JSString)
    (hs : d.assetClass = some s) (hne : s.isEmpty = false)
    (htr : (jsTrim s).isEmpty = false)
    (hcr : jsIncludes (jsLower (jsTrim s)) (("crypto").toList) = true) :
    getCategoryFromData (some d) key = ("Crypto").toList ∧
    getCategoryFromData none (("EURUSD").toList) = ("FX").toList ∧
    getCategoryFromData none (("EUR/USD").toList) = ("FX").toList := by
  refine ⟨?_, by decide, by decide⟩
  cases s with
  | nil => simp at hne
  | cons c t =>
    rw [getCategoryFromData]
    rw [if_neg (by simp)]
    simp only [hs, jsOrChain]
    rw [if_pos (by rw [htr]; rfl)]
    rw [if_pos (by rw [hcr]; rfl)]

/-- Witness for C9 at a concrete input: assetClass "crypto" together with the
FX-pattern key EURUSD. -/
theorem crypto_hint_wins_witness :
    ({ assetClass := some (("crypto").toList) } : Payload).assetClass =
      some (("crypto").toList) ∧
    (("crypto").toList : JSString).isEmpty = false ∧
    (jsTrim (("crypto").toList)).isEmpty = false ∧
    jsIncludes (jsLower (jsTrim (("crypto").toList))) (("crypto").toList) = true ∧
    getCategoryFromData (some { assetClass := some (("crypto").toList) })
      (("EURUSD").toList) = ("Crypto").toList :=
  ⟨rfl, by decide, by decide, by decide,
   (crypto_hint_wins { assetClass := some (("crypto").toList) } (("EURUSD").toList)
     (("crypto").toList) rfl (by decide) (by decide) (by decide)).1⟩

/-! The filter/sort pipeline, heatmap.tsx lines 412-429 and 575-601. -/

/-- The view-mode enumeration of the filter state, heatmap.tsx lines 414-421
(the source field is named `show`, a Lean keyword, hence showMode below). -/
inductive ShowMode where
  | all
  | gainers
  | losers
  | topGainers
  | topLosers
  | highVol
  | lowVol
deriving DecidableEq

/-- The sort-key enumeration, heatmap.tsx line 427. -/
inductive SortKey where
  | weight
  | change
  | price
deriving DecidableEq

/-- The filter state of heatmap.tsx lines 412-429. -/
structure Filters where
  search : JSString
  showMode : ShowMode
  minChange : ℝ
  maxChange : ℝ
  minPrice : ℝ
  maxPrice : ℝ
  excludeStable : Bool
  sortBy : SortKey
  category : Option JSString

/-- The stablecoin suffixes of heatmap.tsx line 581. -/
def stableSuffixes : List JSString :=
  [("USDT").toList, ("USDC").toList, ("DAI").toList, ("BUSD").toList, ("TUSD").toList]

/-- HARD_RENDER_CAP, heatmap.tsx line 39. -/
def HARD_RENDER_CAP : ℕ := 700

open scoped Classical in
/-- Stable insertion into a descending-sorted list, placing the new element
after every element whose key is at least as large — the behaviour of the
stable Array.prototype.sort with comparator (a, b) => key(b) - key(a). -/
noncomputable def insertDesc (key : Rect → ℝ) (a : Rect) : List Rect → List Rect
  | [] => [a]
  | b :: t => if key b < key a then a :: b :: t else b :: insertDesc key a t

/-- Stable descending sort by a numeric key. -/
noncomputable def sortDesc (key : Rect → ℝ) (l : List Rect) : List Rect :=
  l.foldl (fun acc a => insertDesc key a acc) []

open scoped Classical in
/-- Stable insertion into an ascending-sorted list — the behaviour of the
stable Array.prototype.sort with comparator (a, b) => key(a) - key(b). -/
noncomputable def insertAsc (key : Rect → ℝ) (a : Rect) : List Rect → List Rect
  | [] => [a]
  | b :: t => if key a < key b then a :: b :: t else b :: insertAsc key a t

/-- Stable ascending sort by a numeric key. -/
noncomputable def sortAsc (key : Rect → ℝ) (l : List Rect) : List Rect :=
  l.foldl (fun acc a => insertAsc key a acc) []

/-- Materialisation of one store entry, heatmap.tsx line 576. -/
def mkEntryRect (kv : JSString × PriceEntry) : Rect :=
  ⟨0, 0, 0, 0, kv.1, kv.2.price, kv.2.priceChange24hr,
   some (getCategoryFromData kv.2.data kv.1), none⟩

open scoped Classical in
/-- The filter predicate of heatmap.tsx lines 578-590, early returns written
as nested conditionals; pct is priceChange24hr ?? 0 and price is price ?? 0. -/
noncomputable def entryPasses (f : Filters) (expandedCategory : Option JSString)
    (e : Rect) : Bool :=
  if f.excludeStable = true ∧ stableSuffixes.any (fun s => jsEndsWith e.key s) = true then false
  else if f.search ≠ [] ∧ jsIncludes (jsLower e.key) (jsLower f.search) = false then false
  else if f.showMode = ShowMode.gainers ∧ e.priceChange24hr.getD 0 ≤ 0 then false
  else if f.showMode = ShowMode.losers ∧ 0 ≤ e.priceChange24hr.getD 0 then false
  else if e.priceChange24hr.getD 0 < f.minChange ∨ f.maxChange < e.priceChange24hr.getD 0 then false
  else if e.price.getD 0 < f.minPrice ∨ f.maxPrice < e.price.getD 0 then false
  else if truthy expandedCategory = true ∧ expandedCategory ≠ some (("All").toList) then
    decide (e.category = expandedCategory)
  else if truthy f.category = true ∧ f.category ≠ some (("All").toList) ∧
      e.category ≠ f.category then false
  else true

open scoped Classical in
/-- The general sort step of heatmap.tsx lines 595-599: by |change|, by
price, or by computed weight, each descending. -/
noncomputable def generalSort (k : SortKey) : List Rect → List Rect :=
  match k with
  | SortKey.change => sortDesc (fun e => |e.priceChange24hr.getD 0|)
  | SortKey.price => sortDesc (fun e => e.price.getD 0)
  | SortKey.weight => sortDesc (fun e => computeWeight e.price e.priceChange24hr)

open scoped Classical in
/-- The entries pipeline of heatmap.tsx lines 575-601: materialise, filter,
view-mode ranking steps, general sort, render cap. -/
noncomputable def entries (prices : List (JSString × PriceEntry)) (f : Filters)
    (expandedCategory : Option JSString) : List Rect :=
  let data0 := prices.map mkEntryRect
  let data1 := data0.filter (entryPasses f expandedCategory)
  let data2 := if f.showMode = ShowMode.topGainers then
      (sortDesc (fun e => e.priceChange24hr.getD 0) data1).take 30
    else data1
  let data3 := if f.showMode = ShowMode.topLosers then
      (sortAsc (fun e => e.priceChange24hr.getD 0) data2).take 30
    else data2
  let data4 := if f.showMode = ShowMode.highVol then
      (sortDesc (fun e => |e.priceChange24hr.getD 0|) data3).take 40
    else data3
  let data5 := if f.showMode = ShowMode.lowVol then
      data4.filter (fun e => decide (|e.priceChange24hr.getD 0| ≤ 1.5))
    else data4
  let data6 := if f.showMode = ShowMode.topGainers ∨ f.showMode = ShowMode.topLosers ∨
      f.showMode = ShowMode.highVol then data5
    else generalSort f.sortBy data5
  data6.take HARD_RENDER_CAP

/-! Membership lemmas for the stable sorts. -/

lemma mem_insertDesc (key : Rect → ℝ) (a r : Rect) (l : List Rect) :
    r ∈ insertDesc key a l ↔ r = a ∨ r ∈ l := by
  induction l with
  | nil => simp [insertDesc]
  | cons b t ih =>
    rw [insertDesc]
    by_cases hc : key b < key a
    · rw [if_pos hc]
      simp
    · rw [if_neg hc]
      simp [ih]
      tauto

lemma mem_foldl_insertDesc (key : Rect → ℝ) (l acc : List Rect) (r : Rect) :
    r ∈ l.foldl (fun acc a => insertDesc key a acc) acc ↔ r ∈ acc ∨ r ∈ l := by
  induction l generalizing acc with
  | nil => simp
  | cons a t ih =>
    rw [List.foldl_cons, ih, mem_insertDesc]
    simp
    tauto

lemma mem_sortDesc (key : Rect → ℝ) (l : List Rect) (r : Rect) :
    r ∈ sortDesc key l ↔ r ∈ l := by
  rw [sortDesc, mem_foldl_insertDesc]
  simp

lemma mem_insertAsc (key : Rect → ℝ) (a r : Rect) (l : List Rect) :
    r ∈ insertAsc key a l ↔ r = a ∨ r ∈ l := by
  induction l with
  | nil => simp [insertAsc]
  | cons b t ih =>
    rw [insertAsc]
    by_cases hc : key a < key b
    · rw [if_pos hc]
      simp
    · rw [if_neg hc]
      simp [ih]
      tauto

lemma mem_foldl_insertAsc (key : Rect → ℝ) (l acc : List Rect) (r : Rect) :
    r ∈ l.foldl (fun acc a => insertAsc key a acc) acc ↔ r ∈ acc ∨ r ∈ l := by
  induction l generalizing acc with
  | nil => simp
  | cons a t ih =>
    rw [List.foldl_cons, ih, mem_insertAsc]
    simp
    tauto

lemma mem_sortAsc (key : Rect → ℝ) (l : List Rect) (r : Rect) :
    r ∈ sortAsc key l ↔ r ∈ l := by
  rw [sortAsc, mem_foldl_insertAsc]
  simp

/-! Stage-membership lemmas for the pipeline. -/

lemma mem_stage_descTake (c : Prop) [Decidable c] (key : Rect → ℝ) (l : List Rect)
    (n : ℕ) (r : Rect) (hr : r ∈ (if c then (sortDesc key l).take n else l)) : r ∈ l := by
  split_ifs at hr with h
  · exact (mem_sortDesc key l r).mp (List.mem_of_mem_take hr)
  · exact hr

lemma mem_stage_ascTake (c : Prop) [Decidable c] (key : Rect → ℝ) (l : List Rect)
    (n : ℕ) (r : Rect) (hr : r ∈ (if c then (sortAsc key l).take n else l)) : r ∈ l := by
  split_ifs at hr with h
  · exact (mem_sortAsc key l r).mp (List.mem_of_mem_take hr)
  · exact hr

lemma mem_stage_filterIf (c : Prop) [Decidable c] (p : Rect → Bool) (l : List Rect)
    (r : Rect) (hr : r ∈ (if c then l.filter p else l)) : r ∈ l := by
  split_ifs at hr with h
  · exact (List.mem_filter.mp hr).1
  · exact hr

lemma mem_generalSort (k : SortKey) (l : List Rect) (r : Rect) :
    r ∈ generalSort k l ↔ r ∈ l := by
  rcases k <;> rw [generalSort] <;> exact mem_sortDesc _ l r

lemma mem_stage_sortMatch (f : Filters) (l : List Rect) (r : Rect)
    (hr : r ∈ (if f.showMode = ShowMode.topGainers ∨ f.showMode = ShowMode.topLosers ∨
        f.showMode = ShowMode.highVol then l
      else generalSort f.sortBy l)) :
    r ∈ l := by
  split_ifs at hr with h
  · exact hr
  · exact (mem_generalSort _ l r).mp hr

lemma mem_entries_filter (prices : List (JSString × PriceEntry)) (f : Filters)
    (expanded : Option JSString) (r : Rect) (hr : r ∈ entries prices f expanded) :
    r ∈ (prices.map mkEntryRect).filter (entryPasses f expanded) := by
  rw [entries] at hr
  replace hr := List.mem_of_mem_take hr
  replace hr := mem_stage_sortMatch f _ r hr
  replace hr := mem_stage_filterIf _ _ _ r hr
  replace hr := mem_stage_descTake _ _ _ _ r hr
  replace hr := mem_stage_ascTake _ _ _ _ r hr
  exact mem_stage_descTake _ _ _ _ r hr

lemma entryPasses_price_bound (f : Filters) (expanded : Option JSString) (e : Rect)
    (h : entryPasses f expanded e = true) : ¬(e.price.getD 0 < f.minPrice) := by
  intro hlt
  rw [entryPasses] at h
  split_ifs at h with h1 h2 h3 h4 h5 h6 h7 h8 <;> try simp at h
  all_goals exact h6 (Or.inl hlt)

/-- C10: the numeric-bounds step of the pipeline compares a null-price entry
as if its price were 0 (not the 1 the weight function substitutes): whenever
the filter configuration has minPrice > 0, every null-price entry is excluded
from the pipeline output. -/
theorem null_price_excluded (prices : List (JSString × PriceEntry)) (f : Filters)
    (expanded : Option JSString) (hmp : 0 < f.minPrice) :
    ∀ r ∈ entries prices f expanded, r.price ≠ none := by
  intro r hr hnone
  have hf := mem_entries_filter prices f expanded r hr
  have hp := (List.mem_filter.mp hf).2
  have hbound := entryPasses_price_bound f expanded r hp
  rw [hnone] at hbound
  simp only [Option.getD_none] at hbound
  exact hbound hmp

/-! Claim C7: the low-volatility mode. -/

/-- C7 (amended): when the low-volatility view mode is active the pipeline
keeps exactly the entries with |change| ≤ 1.5, but the mode does NOT
supersede the general sort step: the configured sort key (weight / change
magnitude / price) is still applied to the filtered list before the render
cap. -/
lemma entries_lowVol_eq (prices : List (JSString × PriceEntry)) (f : Filters)
    (expanded : Option JSString) (hm : f.showMode = ShowMode.lowVol) :
    entries prices f expanded =
      (generalSort f.sortBy
        (((prices.map mkEntryRect).filter (entryPasses f expanded)).filter
          (fun e => decide (|e.priceChange24hr.getD 0| ≤ 1.5)))).take HARD_RENDER_CAP := by
  rw [entries]
  simp [hm]

lemma entries_lowVol_calm (prices : List (JSString × PriceEntry)) (f : Filters)
    (expanded : Option JSString) (hm : f.showMode = ShowMode.lowVol) :
    ∀ r ∈ entries prices f expanded, |r.priceChange24hr.getD 0| ≤ 1.5 := by
  intro r hr
  rw [entries_lowVol_eq prices f expanded hm] at hr
  replace hr := List.mem_of_mem_take hr
  have hr2 : r ∈ ((prices.map mkEntryRect).filter (entryPasses f expanded)).filter
      (fun e => decide (|e.priceChange24hr.getD 0| ≤ 1.5)) :=
    (mem_generalSort _ _ r).mp hr
  exact of_decide_eq_true (List.mem_filter.mp hr2).2

theorem lowVol_filters_then_sorts (prices : List (JSString × PriceEntry)) (f : Filters)
    (expanded : Option JSString) (hm : f.showMode = ShowMode.lowVol) :
    (∀ r ∈ entries prices f expanded, |r.priceChange24hr.getD 0| ≤ 1.5) ∧
    entries prices f expanded =
      (generalSort f.sortBy
        (((prices.map mkEntryRect).filter (entryPasses f expanded)).filter
          (fun e => decide (|e.priceChange24hr.getD 0| ≤ 1.5)))).take HARD_RENDER_CAP :=
  ⟨entries_lowVol_calm prices f expanded hm, entries_lowVol_eq prices f expanded hm⟩

open scoped Classical in
/-- Modelled from the spec: the low-volatility pipeline as the claim reads —
the |change| ≤ 1.5 filter applied and the general sort step superseded (not
applied), then the render cap. -/
noncomputable def entriesLowVolNoSort (prices : List (JSString × PriceEntry)) (f : Filters)
    (expanded : Option JSString) : List Rect :=
  (((prices.map mkEntryRect).filter (entryPasses f expanded)).filter
    (fun e => decide (|e.priceChange24hr.getD 0| ≤ 1.5))).take HARD_RENDER_CAP

/-- Concrete two-ticker store used for the pipeline counterexample/witness. -/
def psC : List (JSString × PriceEntry) :=
  [(("A").toList, ⟨none, some 1, some 1⟩), (("B").toList, ⟨none, some 5, some 1⟩)]

/-- Concrete low-volatility filter configuration sorting by price. -/
noncomputable def fC : Filters :=
  ⟨[], ShowMode.lowVol, -100, 100, 1, 1000000, false, SortKey.price, none⟩

lemma entryPasses_fC (e : Rect) (h1 : -100 ≤ e.priceChange24hr.getD 0)
    (h2 : e.priceChange24hr.getD 0 ≤ 100) (h3 : 1 ≤ e.price.getD 0)
    (h4 : e.price.getD 0 ≤ 1000000) :
    entryPasses fC none e = true := by
  rw [entryPasses]
  rw [if_neg (by simp [fC])]
  rw [if_neg (by simp [fC])]
  rw [if_neg (by simp [fC])]
  rw [if_neg (by simp [fC])]
  rw [if_neg (by push_neg; exact ⟨by simpa [fC] using h1, by simpa [fC] using h2⟩)]
  rw [if_neg (by push_neg; exact ⟨by simpa [fC] using h3, by simpa [fC] using h4⟩)]
  rw [if_neg (by simp [truthy])]
  rw [if_neg (by simp [fC, truthy])]

lemma entryPasses_fC_A :
    entryPasses fC none (mkEntryRect (("A").toList, ⟨none, some 1, some 1⟩)) = true := by
  apply entryPasses_fC <;> (simp [mkEntryRect]; try norm_num)

lemma entryPasses_fC_B :
    entryPasses fC none (mkEntryRect (("B").toList, ⟨none, some 5, some 1⟩)) = true := by
  apply entryPasses_fC <;> (simp [mkEntryRect]; try norm_num)

lemma filtered_psC :
    ((psC.map mkEntryRect).filter (entryPasses fC none)).filter
      (fun e => decide (|e.priceChange24hr.getD 0| ≤ 1.5)) =
    [mkEntryRect (("A").toList, ⟨none, some 1, some 1⟩),
     mkEntryRect (("B").toList, ⟨none, some 5, some 1⟩)] := by
  rw [psC]
  simp only [List.map_cons, List.map_nil]
  rw [List.filter_cons_of_pos entryPasses_fC_A, List.filter_cons_of_pos entryPasses_fC_B,
    List.filter_nil]
  rw [List.filter_cons, List.filter_cons, List.filter_nil]
  rw [if_pos (by rw [decide_eq_true_eq]; simp [mkEntryRect]; try norm_num)]
  rw [if_pos (by rw [decide_eq_true_eq]; simp [mkEntryRect]; try norm_num)]

lemma entries_psC_eval :
    entries psC fC none =
      [mkEntryRect (("B").toList, ⟨none, some 5, some 1⟩),
       mkEntryRect (("A").toList, ⟨none, some 1, some 1⟩)] := by
  rw [entries_lowVol_eq psC fC none rfl]
  have hsb : fC.sortBy = SortKey.price := rfl
  rw [hsb, filtered_psC]
  rw [generalSort]
  unfold sortDesc
  simp only [List.foldl_cons, List.foldl_nil, insertDesc]
  rw [if_pos (by simp [mkEntryRect]; try norm_num)]
  simp [HARD_RENDER_CAP]

lemma entriesLowVolNoSort_psC_eval :
    entriesLowVolNoSort psC fC none =
      [mkEntryRect (("A").toList, ⟨none, some 1, some 1⟩),
       mkEntryRect (("B").toList, ⟨none, some 5, some 1⟩)] := by
  rw [entriesLowVolNoSort, filtered_psC]
  simp [HARD_RENDER_CAP]

/-- Counterexample to C7 as stated: with the low-volatility mode active and
sortBy = price, the pipeline output IS sorted by the configured key
(descending price), and differs from the output the claim predicts, in which
the general sort step is superseded and store order is kept. -/
theorem lowVol_supersedes_counterexample :
    entries psC fC none ≠ entriesLowVolNoSort psC fC none := by
  rw [entries_psC_eval, entriesLowVolNoSort_psC_eval]
  intro heq
  have h2 := congrArg (fun l : List Rect => l.map Rect.key) heq
  simp only [List.map_cons, List.map_nil, mkEntryRect] at h2
  exact absurd h2 (by decide)

/-- Witness for C7 (amended) at a concrete input. -/
theorem lowVol_filters_then_sorts_witness :
    fC.showMode = ShowMode.lowVol ∧
    ∀ r ∈ entries psC fC none, |r.priceChange24hr.getD 0| ≤ 1.5 :=
  ⟨rfl, (lowVol_filters_then_sorts psC fC none (by rfl)).1⟩

/-- Witness for C10 at a concrete input. -/
theorem null_price_excluded_witness :
    0 < fC.minPrice ∧
    mkEntryRect (("B").toList, ⟨none, some 5, some 1⟩) ∈ entries psC fC none ∧
    (mkEntryRect (("B").toList, ⟨none, some 5, some 1⟩)).price ≠ none :=
  ⟨by norm_num [fC], by rw [entries_psC_eval]; simp,
   null_price_excluded psC fC none (by norm_num [fC]) _ (by rw [entries_psC_eval]; simp)⟩

end Heatmap
